import Mathlib

/-!
Shallow embedding of django-cache-machine (caching/base.py, caching/invalidation.py,
caching/config.py) and proofs about its caching and invalidation behaviour.

Python strings are Lean `String`s; Python sets of strings are `Finset String`;
`hashlib.md5(...).hexdigest()` is abstracted by a `digest : String → String`
parameter (the development never relies on properties of the digest beyond it
being a function, except where a claim explicitly assumes collision-freedom,
which then appears as an injectivity hypothesis); Python `None` is `Option.none`.
-/

namespace CacheMachine

/-- Embeds caching/config.py NO_CACHE = -1. -/
def NO_CACHE : Int := -1

/-- Embeds caching/config.py WHOLE_MODEL = 'whole-model'. -/
def WHOLE_MODEL : String := "whole-model"

/-- Embeds the Django-settings-derived values read in caching/config.py:
CACHE_PREFIX, FETCH_BY_ID, CACHE_EMPTY_QUERYSETS, CACHE_COUNT_TIMEOUT
(config.TIMEOUT) and CACHE_INVALIDATE_ON_CREATE, plus the active language
returned by django.utils.translation.get_language() (used by make_key). -/
structure Config where
  cpre : String
  fetchById : Bool
  cacheEmptyQuerysets : Bool
  countTimeout : Int
  invalidateOnCreate : Option String
  lang : String

/-- Embeds caching/config.py FLUSH = CACHE_PREFIX + ':flush:'. -/
def Config.FLUSH (c : Config) : String := c.cpre ++ ":flush:"

/-- Embeds invalidation.make_key: '%s:%s' % (CACHE_PREFIX, k), the current
language appended when with_locale, then md5-hexdigested. -/
def make_key (digest : String → String) (c : Config) (k : String) (with_locale : Bool) : String :=
  digest (c.cpre ++ ":" ++ k ++ (if with_locale then c.lang else ""))

/-- Embeds invalidation.flush_key on a string argument:
config.FLUSH + make_key(key, with_locale=False). -/
def flush_key_str (digest : String → String) (c : Config) (key : String) : String :=
  c.FLUSH ++ make_key digest c key false

/-- Embeds invalidation.byid on a string argument: make_key('byid:' + key)
(with_locale defaults to True in make_key). -/
def byid_str (digest : String → String) (c : Config) (key : String) : String :=
  make_key digest c ("byid:" ++ key) true

/-- Embeds base._function_cache_key: make_key('f:%s' % key, with_locale=True). -/
def _function_cache_key (digest : String → String) (c : Config) (key : String) : String :=
  make_key digest c ("f:" ++ key) true

/-- Models one foreign-key field of a model instance, as consumed by
CachingMixin._cache_keys: the related model label, the stored attribute value
(None possible) and whether the related model has a _cache_key attribute. -/
structure FkRef where
  meta : String
  val : Option String
  cachable : Bool
deriving DecidableEq

/-- Models a CachingMixin model instance: its model label (cls._meta), primary
key, database alias (self._state.db, None possible) and foreign-key fields. -/
structure MObj where
  meta : String
  pk : String
  db : Option String
  fks : List FkRef
deriving DecidableEq

/-- Embeds CachingMixin._cache_key(pk, db): ':'.join of ('o', meta, pk, db)
when db is truthy, of ('o', meta, pk) otherwise (None and '' are falsy). -/
def _cache_key (meta pk : String) (db : Option String) : String :=
  match db with
  | some d => if d = "" then "o:" ++ meta ++ ":" ++ pk else "o:" ++ meta ++ ":" ++ pk ++ ":" ++ d
  | none => "o:" ++ meta ++ ":" ++ pk

/-- Embeds the Python expression `incl_db and self._state.db or None` used in
CachingMixin.get_cache_key and _cache_keys. -/
def dbArg (incl_db : Bool) (db : Option String) : Option String :=
  if incl_db then
    match db with
    | some d => if d = "" then none else some d
    | none => none
  else none

/-- Embeds CachingMixin.get_cache_key(incl_db):
_cache_key(self.pk, incl_db and self._state.db or None). -/
def get_cache_key (o : MObj) (incl_db : Bool) : String :=
  _cache_key o.meta o.pk (dbArg incl_db o.db)

/-- Embeds invalidation.flush_key on a model object:
flush_key of obj.get_cache_key(incl_db=False). -/
def flush_key_obj (digest : String → String) (c : Config) (o : MObj) : String :=
  flush_key_str digest c (get_cache_key o false)

/-- Embeds invalidation.byid on a model object: byid of obj.cache_key, where
cache_key is get_cache_key(incl_db=True). -/
def byid_obj (digest : String → String) (c : Config) (o : MObj) : String :=
  byid_str digest c (get_cache_key o true)

/-- Embeds CachingMixin._cache_keys(incl_db): the object's own cache key
followed by one key per foreign-key field whose value is not None and whose
related model has a _cache_key attribute. -/
def _cache_keys (o : MObj) (incl_db : Bool) : List String :=
  get_cache_key o incl_db ::
    o.fks.filterMap (fun f =>
      match f.val with
      | some v => if f.cachable then some (_cache_key f.meta v (dbArg incl_db o.db)) else none
      | none => none)

/-- Embeds CachingMixin._flush_keys: map(flush_key, self._cache_keys(incl_db=False)). -/
def _flush_keys (digest : String → String) (c : Config) (o : MObj) : List String :=
  (_cache_keys o false).map (flush_key_str digest c)

/-- Embeds CachingMixin.model_flush_key:
flush_key(cls._cache_key('all-pks', 'all-dbs')). -/
def model_flush_key (digest : String → String) (c : Config) (meta : String) : String :=
  flush_key_str digest c (_cache_key meta "all-pks" (some "all-dbs"))

/-- Models a hydrated row object as it flows through CachingModelIterable:
the model instance plus its from_cache attribute (None when never assigned). -/
structure Row where
  obj : MObj
  fromCache : Option Bool
deriving DecidableEq

/-- Embeds the assignment obj.from_cache = b performed in
CachingModelIterable.__iter__. -/
def setFromCache (b : Bool) (r : Row) : Row :=
  { r with fromCache := some b }

/-- Models the inputs of one run of CachingModelIterable.__iter__:
the effective timeout, the queryset's raw fully-bound SQL (None models
query_key() raising EmptyResultSet), the database alias, the cache state
consulted by cache.get, and the underlying row producer: the rows it yields
and, optionally, the exception it raises after yielding them. -/
structure IterInput where
  timeout : Int
  rawQuery : Option String
  db : String
  cacheStore : String → Option (List Row)
  producerRows : List Row
  producerExn : Option Nat

/-- Models the observable outcome of one run of CachingModelIterable.__iter__:
the rows yielded to the caller, whether the underlying row producer was
invoked, the keys read via cache.get, the (key, objects, timeout) writes issued
via cache.add, the invalidator.cache_objects registrations issued as
(objects, query_key, query_flush), and the exception propagated, if any. -/
structure IterOutcome where
  yielded : List Row
  producerRan : Bool
  cacheGets : List String
  cacheAdds : List (String × List Row × Int)
  registrations : List (List Row × String × String)
  raised : Option Nat
deriving DecidableEq

/-- Embeds CachingModelIterable.query_key:
make_key('qs:%s::db:%s' % (queryset.query_key(), db), with_locale=False). -/
def iter_query_key (digest : String → String) (c : Config) (raw db : String) : String :=
  make_key digest c ("qs:" ++ raw ++ "::db:" ++ db) false

/-- Embeds CachingModelIterable.__iter__ together with its helper
cache_objects (base.py lines 95-144): pass-through on NO_CACHE; return
immediately when query_key() raises EmptyResultSet; yield marked cached rows
on a cache hit; otherwise run the producer, yield rows marked from_cache=False
while accumulating them, propagate a producer exception unchanged, and on
exhaustion call cache.add and invalidator.cache_objects when the accumulated
list is non-empty or CACHE_EMPTY_QUERYSETS is set. -/
def cachingIterRun (digest : String → String) (c : Config) (inp : IterInput) : IterOutcome :=
  if inp.timeout = NO_CACHE then
    { yielded := inp.producerRows, producerRan := true, cacheGets := [],
      cacheAdds := [], registrations := [], raised := inp.producerExn }
  else
    match inp.rawQuery with
    | none =>
      { yielded := [], producerRan := false, cacheGets := [],
        cacheAdds := [], registrations := [], raised := none }
    | some raw =>
      let qkey := iter_query_key digest c raw inp.db
      match inp.cacheStore qkey with
      | some objs =>
        { yielded := objs.map (setFromCache true), producerRan := false,
          cacheGets := [qkey], cacheAdds := [], registrations := [], raised := none }
      | none =>
        let marked := inp.producerRows.map (setFromCache false)
        match inp.producerExn with
        | some e =>
          { yielded := marked, producerRan := true, cacheGets := [qkey],
            cacheAdds := [], registrations := [], raised := some e }
        | none =>
          if marked ≠ [] ∨ c.cacheEmptyQuerysets then
            { yielded := marked, producerRan := true, cacheGets := [qkey],
              cacheAdds := [(qkey, marked, inp.timeout)],
              registrations := [(marked, qkey, flush_key_str digest c raw)],
              raised := none }
          else
            { yielded := marked, producerRan := true, cacheGets := [qkey],
              cacheAdds := [], registrations := [], raised := none }

/-- Modelled from the spec: the Backend Adapter contract of section 4.2,
`add(key, value, ttl) -> bool` is a no-op when the key is already present
(the concrete implementation lives in Django's cache backends, outside this
repository; caching/backends only wraps their timeout handling). -/
def cache_add (σ : String → Option (List Row)) (k : String) (v : List Row) :
    String → Option (List Row) :=
  match σ k with
  | some _ => σ
  | none => fun k2 => if k2 = k then some v else σ k2

/-- Applies the cache.add writes recorded in an IterOutcome to a cache state. -/
def applyAdds (σ : String → Option (List Row)) (adds : List (String × List Row × Int)) :
    String → Option (List Row) :=
  adds.foldl (fun s a => cache_add s a.1 a.2.1) σ

/-- Models one cell of the backend as seen by the flush-list code: the key can
be absent, hold a stored None, or hold a set of member keys. -/
inductive FlushVal
  | absent
  | storedNone
  | vals (s : Finset String)
deriving DecidableEq

/-- Members contributed by a backend cell: absent and None cells (filtered out
as falsy by Invalidator.get_flush_lists) and empty sets contribute nothing. -/
def FlushVal.asSet : FlushVal → Finset String
  | .absent => ∅
  | .storedNone => ∅
  | .vals s => s

/-- Embeds Python str.startswith as applied to cache keys (character-level
test that the second string is an initial segment of the first). -/
def pyStartsWith (s pre : String) : Bool := pre.data.isPrefixOf s.data

/-- Embeds Invalidator.get_flush_lists: the union of all members of the
flush lists stored at `keys` (missing and falsy values are skipped). -/
def get_flush_lists (σ : String → FlushVal) (keys : Finset String) : Finset String :=
  keys.biUnion (fun k => (σ k).asSet)

/-- Embeds the `while 1` loop of Invalidator.expand_flush_lists, with explicit
fuel standing for the number of loop iterations still allowed (the Python loop
is unbounded; `none` means the loop did not finish within the given fuel).
Each iteration reads the flush lists of `searchKeys`, partitions the found
members by the config.FLUSH prefix, and either returns (when no flush-prefixed
member was found) or continues searching from exactly the found flush keys. -/
def expandLoop (σ : String → FlushVal) (FLUSH : String) :
    Nat → Finset String → Finset String → Finset String → Option (Finset String × Finset String)
  | 0, _, _, _ => none
  | n + 1, objKeys, flushKeys, searchKeys =>
    let found := get_flush_lists σ searchKeys
    let newKeys := found.filter (fun k => pyStartsWith k FLUSH = true)
    let objKeys2 := objKeys ∪ found.filter (fun k => pyStartsWith k FLUSH = false)
    if newKeys = ∅ then some (objKeys2, flushKeys)
    else expandLoop σ FLUSH n objKeys2 (flushKeys ∪ newKeys) newKeys

/-- Embeds Invalidator.expand_flush_lists(obj_keys, flush_keys): both arguments
become sets and the search starts from the given flush keys. -/
def expand_flush_lists (σ : String → FlushVal) (FLUSH : String) (fuel : Nat)
    (obj_keys flush_keys : List String) : Option (Finset String × Finset String) :=
  expandLoop σ FLUSH fuel obj_keys.toFinset flush_keys.toFinset flush_keys.toFinset

/-- Modelled from the spec: the Backend Adapter contract of section 4.2,
`getMany(keys) -> map(key -> value)` where keys absent from the store are
simply missing from the result (the concrete implementation is Django's cache
backend, outside this repository). Stored-None values are kept, mirroring the
`flush_lists[key] is None` defence in Invalidator.add_to_flush_list. -/
def getMany (σ : String → FlushVal) (keys : List String) :
    List (String × Option (Finset String)) :=
  keys.filterMap (fun k =>
    match σ k with
    | .absent => none
    | .storedNone => some (k, none)
    | .vals s => some (k, some s))

/-- Models Python dict lookup on an association list built by repeated
insertion: the last binding of a key wins. -/
def pyLookup (l : List (String × α)) (k : String) : Option α :=
  match l with
  | [] => none
  | kv :: t =>
    match pyLookup t k with
    | some v => some v
    | none => if kv.1 = k then some kv.2 else none

/-- Embeds Invalidator.add_to_flush_list(mapping) of the generic (non-Redis)
strategy: bulk-read the existing lists for the mapping's keys into a
defaultdict(set), replace a stored None by set(list_), union the new members
into an existing set, and bulk-write every entry back via set_many. The
result is the backend state after the set_many. -/
def add_to_flush_list (σ : String → FlushVal) (mapping : List (String × Finset String)) :
    String → FlushVal :=
  let gotten := getMany σ (mapping.map Prod.fst)
  let merged : List (String × Finset String) := mapping.map (fun kl =>
    match pyLookup gotten kl.1 with
    | some none => (kl.1, kl.2)
    | some (some s) => (kl.1, s ∪ kl.2)
    | none => (kl.1, ∅ ∪ kl.2))
  fun k =>
    match pyLookup merged k with
    | some s => .vals s
    | none => σ k

/-- Embeds the update of a defaultdict(set): flush_lists[k].add(v). -/
def mAdd (m : String → Finset String) (k v : String) : String → Finset String :=
  fun k2 => if k2 = k then insert v (m k2) else m k2

/-- Embeds Invalidator.cache_objects(model, objects, query_key, query_flush)
up to its final add_to_flush_list call: the defaultdict(set) mapping it builds
(a key the code never touches maps to the empty set, meaning no entry).
In order: add query_flush to each object's flush list, add query_key to the
query_flush list, add query_key to the whole-model flush list when
CACHE_INVALIDATE_ON_CREATE == WHOLE_MODEL, then for each object add its flush
key to the lists of its related flush keys (skipping its own and the model's)
and, when FETCH_BY_ID, add byid(obj) to each related list. -/
def cache_objects_mapping (digest : String → String) (c : Config) (modelMeta : String)
    (objects : List MObj) (query_key query_flush : String) : String → Finset String :=
  let m0 : String → Finset String := fun _ => ∅
  let m1 := (objects.map (flush_key_obj digest c)).foldl (fun m k => mAdd m k query_flush) m0
  let m2 := mAdd m1 query_flush query_key
  let model_flush := model_flush_key digest c modelMeta
  let m3 := if c.invalidateOnCreate = some WHOLE_MODEL then mAdd m2 model_flush query_key else m2
  objects.foldl (fun m o =>
    let obj_flush := flush_key_obj digest c o
    (_flush_keys digest c o).foldl (fun m2 key =>
      let m3 := if key ≠ obj_flush ∧ key ≠ model_flush then mAdd m2 key obj_flush else m2
      if c.fetchById then mAdd m3 key (byid_obj digest c o) else m3) m) m3

/-- Embeds Invalidator.invalidate_objects(objects, is_new_instance, model_cls):
collect the objects' cache keys and flush keys, append the model's flush key
when whole-model invalidation on create applies, return early (deleting
nothing, modelled as (∅, ∅)) when either list is empty, and otherwise expand
the flush lists. The result is the pair of key sets handed to
cache.delete_many and clear_flush_lists; `none` means the expansion loop did
not finish within the given fuel. -/
def invalidate_objects (digest : String → String) (c : Config) (σ : String → FlushVal)
    (fuel : Nat) (objects : List MObj) (is_new_instance : Bool) (model_cls : Option String) :
    Option (Finset String × Finset String) :=
  let obj_keys := objects.flatMap (fun o => _cache_keys o true)
  let flush_keys := objects.flatMap (_flush_keys digest c)
  let flush_keys2 :=
    match model_cls with
    | some meta =>
      if c.invalidateOnCreate = some WHOLE_MODEL ∧ is_new_instance then
        flush_keys ++ [model_flush_key digest c meta]
      else flush_keys
    | none => flush_keys
  if obj_keys = [] ∨ flush_keys2 = [] then some (∅, ∅)
  else expand_flush_lists σ c.FLUSH fuel obj_keys flush_keys2

/-- Models the errors caught by invalidation.safe_redis: socket.error and
redislib.RedisError. -/
inductive RedisErr
  | socketError (msg : String)
  | redisError (msg : String)
deriving DecidableEq

/-- Models the decorator argument of safe_redis: Python distinguishes a
callable return_type (invoked on error) from a plain value (returned as-is). -/
inductive PyRet (α : Type)
  | value (a : α)
  | callable (f : Unit → α)

/-- Embeds invalidation.safe_redis: run the wrapped body; on a caught redis
error, log and return return_type() when callable, return_type otherwise. -/
def safe_redis (ret : PyRet α) (body : Except RedisErr α) : α :=
  match body with
  | .ok a => a
  | .error _ =>
    match ret with
    | .value a => a
    | .callable f => f ()

/-- Embeds RedisInvalidator.safe_key: keys containing a space or newline are
logged and replaced by the empty string. -/
def safe_key (key : String) : String :=
  if key.contains ' ' ∨ key.contains '\n' then "" else key

/-- Models the Python return value of RedisInvalidator.get_flush_lists: the
decoded member list on success, or the set() produced by safe_redis on error. -/
inductive GetFlushRes
  | list (l : List String)
  | set (s : Finset String)
deriving DecidableEq

/-- Embeds RedisInvalidator.get_flush_lists, decorated with safe_redis(set):
sunion over the sanitized keys, members decoded to strings (decoding is the
identity in this model); a redis error yields set(). -/
def redis_get_flush_lists (sunion : List String → Except RedisErr (List String))
    (keys : List String) : GetFlushRes :=
  safe_redis (.callable fun _ => .set ∅) ((sunion (keys.map safe_key)).map GetFlushRes.list)

/-- Embeds RedisInvalidator.add_to_flush_list, decorated with safe_redis(None):
one SADD per (sanitized flush key, member) pair issued through a pipeline whose
execution may fail; the Python function returns None on both paths. -/
def redis_add_to_flush_list (exec : List (String × String) → Except RedisErr Unit)
    (mapping : List (String × List String)) : Option Unit :=
  let cmds := mapping.flatMap (fun kl => kl.2.map (fun q => (safe_key kl.1, q)))
  safe_redis (.value none) ((exec cmds).map (fun _ => none))

/-- Embeds RedisInvalidator.clear_flush_lists, decorated with safe_redis(None):
redis.delete over the sanitized keys; the Python function returns None. -/
def redis_clear_flush_lists (del : List String → Except RedisErr Unit)
    (keys : List String) : Option Unit :=
  safe_redis (.value none) ((del (keys.map safe_key)).map (fun _ => none))

/-- Modelled from the spec: Backend Adapter `get(key) -> value|absent`
(section 4.2); the concrete implementation is Django's cache backend, outside
this repository. A Python caller observes None for an absent key, so a stored
None reads back exactly like a miss. The store maps a key to `none` when
absent and to `some v` when the cell holds the Python value `v` (itself an
`Option`, since None can be stored). -/
def cache_get (σ : String → Option (Option α)) (k : String) : Option α :=
  Option.join (σ k)

/-- Records one run of base.cached: the returned value, the resulting cache
state, whether the wrapped function was executed, and the keys read. -/
structure CachedRun (α : Type) where
  val : Option α
  store : String → Option (Option α)
  fRan : Bool
  reads : List String

/-- Embeds base.cached(function, key_, duration): derive the function cache
key, call the function and cache.set the result only when cache.get returned
None. `fval` is the value the wrapped function returns when invoked. -/
def cachedRun (digest : String → String) (c : Config) (σ : String → Option (Option α))
    (fval : Option α) (key_ : String) : CachedRun α :=
  let key := _function_cache_key digest c key_
  match cache_get σ key with
  | some v => ⟨some v, σ, false, [key]⟩
  | none => ⟨fval, fun k => if k = key then some fval else σ k, true, [key]⟩

/-- Records one run of base.cached_with: additionally the mapping handed to
invalidator.add_to_flush_list. -/
structure CachedWithRun (α : Type) where
  val : Option α
  store : String → Option (Option α)
  fRan : Bool
  reads : List String
  flushAdds : List (String × Finset String)

/-- Embeds base.cached_with(obj, f, f_key, timeout) for a queryset dependency
object: obj.query_key() raising EmptyResultSet (modelled by rawQuery = none)
makes it run f directly with no cache interaction; otherwise the combined key
is '%s:%s' % (f_key, obj_key), the derived function cache key is registered in
the queryset's flush list, and base.cached finishes the job. -/
def cached_with_qs (digest : String → String) (c : Config) (σ : String → Option (Option α))
    (rawQuery : Option String) (fval : Option α) (f_key : String) : CachedWithRun α :=
  match rawQuery with
  | none => ⟨fval, σ, true, [], []⟩
  | some raw =>
    let key := f_key ++ ":" ++ raw
    let r := cachedRun digest c σ fval key
    ⟨r.val, r.store, r.fRan, r.reads,
      [(flush_key_str digest c raw, {_function_cache_key digest c key})]⟩

/-- Records one run of CachingQuerySet.count: the returned count, the
resulting cache state, whether the underlying COUNT query ran, the cache keys
read, and the flush-list registrations made. -/
structure CountRun where
  result : Nat
  store : String → Option (Option Nat)
  superRan : Bool
  reads : List String
  flushAdds : List (String × Finset String)

/-- Embeds CachingQuerySet.count: return 0 as soon as query_key() raises
EmptyResultSet; bypass the cache when the queryset timeout or
config.TIMEOUT is NO_CACHE; otherwise delegate to
cached_with(self, super_count, 'count:' + query_key, config.TIMEOUT). -/
def qsCountRun (digest : String → String) (c : Config) (timeout : Int)
    (rawQuery : Option String) (superCount : Nat) (σ : String → Option (Option Nat)) : CountRun :=
  match rawQuery with
  | none => ⟨0, σ, false, [], []⟩
  | some raw =>
    if timeout = NO_CACHE ∨ c.countTimeout = NO_CACHE then ⟨superCount, σ, true, [], []⟩
    else
      let r := cached_with_qs digest c σ (some raw) (some superCount) ("count:" ++ raw)
      -- super_count yields an int, never None, so r.val is always populated
      ⟨r.val.getD 0, r.store, r.fRan, r.reads, r.flushAdds⟩

/-- Models Python dict insertion: an existing key keeps its position and gets
the new value, a new key is appended (dict preserves insertion order). -/
def dictInsert (l : List (String × α)) (k : String) (v : α) : List (String × α) :=
  if k ∈ l.map Prod.fst then l.map (fun kv => if kv.1 = k then (k, v) else kv)
  else l ++ [(k, v)]

/-- Models Python dict construction from a sequence of key/value pairs. -/
def dictOf (l : List (String × α)) : List (String × α) :=
  l.foldl (fun d kv => dictInsert d kv.1 kv.2) []

/-- Embeds the per-pk cache key used by CachingQuerySet.fetch_by_id:
byid(self.model._cache_key(pk, self.db)). -/
def fetch_key (digest : String → String) (c : Config) (meta : String) (db : Option String)
    (pk : String) : String :=
  byid_str digest c (_cache_key meta pk db)

/-- Records one run of CachingQuerySet.fetch_by_id: the yielded object
sequence (none models the KeyError raised when an id is in neither map) and
the cache.set_many writes of freshly fetched objects. -/
structure FetchByIdRun where
  yielded : Option (List MObj)
  setManyWrites : List (String × MObj)
deriving DecidableEq

/-- Embeds CachingQuerySet.fetch_by_id (base.py lines 185-215): take the pks
of the id-only query, build the byid key → pk dict, bulk-read already-cached
objects (cacheGetMany yields none for keys that are absent or mapped to None,
matching the get_many result filtered by `v is not None`), fetch the missing
pks via fetch_missed, cache the fetched objects by byid key, then yield in
original pk order by indexing the merged object dict by primary key. -/
def fetch_by_id (digest : String → String) (c : Config) (meta : String) (db : Option String)
    (pks : List String) (cacheGetMany : String → Option MObj)
    (fetchMissed : List String → List MObj) : FetchByIdRun :=
  let keys := dictOf (pks.map (fun pk => (fetch_key digest c meta db pk, pk)))
  let cached := keys.filterMap (fun kv => (cacheGetMany kv.1).map (fun o => (kv.1, o)))
  let missed := keys.filterMap (fun kv =>
    if (pyLookup cached kv.1).isSome then none else some kv.2)
  let new := if missed ≠ [] then
    dictOf ((fetchMissed missed).map (fun o => (byid_obj digest c o, o))) else []
  let objects := dictOf ((cached.map Prod.snd ++ new.map Prod.snd).map (fun o => (o.pk, o)))
  { yielded := pks.mapM (fun pk => pyLookup objects pk), setManyWrites := new }

/-- Concrete configuration used by witnesses: CACHE_PREFIX 'p', fetch-by-id
off, empty querysets not cached, count timeout 3, whole-model invalidation
off, active language 'en'. -/
def cfg0 : Config := ⟨"p", false, false, 3, none, "en"⟩

/-- Concrete configuration with whole-model invalidation on create enabled. -/
def cfgE : Config := ⟨"p", false, false, 3, some WHOLE_MODEL, "en"⟩

/-- Concrete row used by witnesses. -/
def rowA : Row := ⟨⟨"addon", "1", some "default", []⟩, none⟩

/-- Concrete iteration input: cache miss, producer raises 7 after one row. -/
def inpExn : IterInput := ⟨30, some "SELECT 1", "default", fun _ => none, [rowA], some 7⟩

/-- Concrete iteration input: cache miss, producer yields one row and finishes. -/
def inpMiss : IterInput := ⟨30, some "SELECT 1", "default", fun _ => none, [rowA], none⟩

/-- Concrete iteration input whose key derivation raises EmptyResultSet. -/
def inpEmptyRS : IterInput := ⟨30, none, "default", fun _ => none, [rowA], none⟩

/-- Concrete flush-list store holding one list at key k1. -/
def σ4 : String → FlushVal := fun k => if k = "k1" then .vals {"q0"} else .absent

/-- Concrete flush-list store whose flush-key graph is a two-cycle:
the flush list of p:flush:a contains p:flush:b and vice versa (such mutual
edges arise from two rows referencing each other by foreign key). -/
def σcyc : String → FlushVal := fun k =>
  if k = "p:flush:a" then .vals {"p:flush:b"}
  else if k = "p:flush:b" then .vals {"p:flush:a"}
  else .absent

/-- Concrete acyclic flush-list store: one flush list holding one object key. -/
def σw : String → FlushVal := fun k =>
  if k = "p:flush:a" then .vals {"o:addon:1"} else .absent

/-- Concrete byid cache for the fetch-by-id witness: pk 1 is cached, pk 2 is
not. -/
def cgm8 : String → Option MObj := fun k =>
  if k = fetch_key (fun s => s) cfg0 "addon" (some "default") "1"
  then some ⟨"addon", "1", some "default", []⟩ else none

/-- Concrete second-query runner for the fetch-by-id witness: returns one row
per requested pk. -/
def fm8 : List String → List MObj :=
  fun l => l.map (fun pk => (⟨"addon", pk, some "default", []⟩ : MObj))

/-- Store scenario for whole-model invalidation: only the model's sentinel
flush key has a flush list, holding one cached query key. -/
def sentinelStore (digest : String → String) (c : Config) (meta qk : String) :
    String → FlushVal :=
  fun k => if k = model_flush_key digest c meta then .vals {qk} else .absent

/-- C5: on a cache miss in which the row producer raises before exhaustion,
the partially accumulated rows are never written to the cache (no cache.add),
no flush-list registration happens, the exception propagates unchanged, and
the prefix yielded so far was handed to the caller marked from_cache=False. -/
theorem producer_error_discards_partial_fill (digest : String → String) (c : Config)
    (inp : IterInput) (raw : String) (e : Nat)
    (ht : inp.timeout ≠ NO_CACHE) (hraw : inp.rawQuery = some raw)
    (hmiss : inp.cacheStore (iter_query_key digest c raw inp.db) = none)
    (hexn : inp.producerExn = some e) :
    (cachingIterRun digest c inp).cacheAdds = [] ∧
    (cachingIterRun digest c inp).registrations = [] ∧
    (cachingIterRun digest c inp).raised = some e ∧
    (cachingIterRun digest c inp).yielded = inp.producerRows.map (setFromCache false) := by
  simp [cachingIterRun, ht, hraw, hmiss, hexn]

/-- Witness for C5 at a concrete input. -/
theorem producer_error_discards_partial_fill_witness :
    (cachingIterRun (fun s => s) cfg0 inpExn).cacheAdds = [] ∧
    (cachingIterRun (fun s => s) cfg0 inpExn).registrations = [] ∧
    (cachingIterRun (fun s => s) cfg0 inpExn).raised = some 7 ∧
    (cachingIterRun (fun s => s) cfg0 inpExn).yielded = inpExn.producerRows.map (setFromCache false) :=
  producer_error_discards_partial_fill (fun s => s) cfg0 inpExn "SELECT 1" 7
    (by decide) rfl rfl rfl

/-- C3: on a cache miss where the producer runs to exhaustion, the result is
written back if and only if the accumulation list is non-empty or
CACHE_EMPTY_QUERYSETS is set, the write is exactly one cache.add of the marked
rows at the query key with the queryset timeout, and applying that add to any
backend state never overwrites a value already present at the query key.
Reason spec-modelled in part: cache.add's no-overwrite semantics (cache_add)
follow the Backend Adapter contract, the implementation being Django's. -/
theorem cache_fill_add_iff_nonempty_or_flag (digest : String → String) (c : Config)
    (inp : IterInput) (raw : String) (σ2 : String → Option (List Row)) (v0 : List Row)
    (ht : inp.timeout ≠ NO_CACHE) (hraw : inp.rawQuery = some raw)
    (hmiss : inp.cacheStore (iter_query_key digest c raw inp.db) = none)
    (hexn : inp.producerExn = none)
    (hv : σ2 (iter_query_key digest c raw inp.db) = some v0) :
    ((cachingIterRun digest c inp).cacheAdds ≠ [] ↔
      (inp.producerRows ≠ [] ∨ c.cacheEmptyQuerysets = true)) ∧
    (cachingIterRun digest c inp).cacheAdds =
      (if inp.producerRows ≠ [] ∨ c.cacheEmptyQuerysets = true then
        [(iter_query_key digest c raw inp.db,
          inp.producerRows.map (setFromCache false), inp.timeout)]
      else []) ∧
    applyAdds σ2 (cachingIterRun digest c inp).cacheAdds
      (iter_query_key digest c raw inp.db) = some v0 := by
  have hmarked : (inp.producerRows.map (setFromCache false) ≠ []) ↔ (inp.producerRows ≠ []) := by
    simp
  by_cases hrows : inp.producerRows = []
  · by_cases hflag : c.cacheEmptyQuerysets = true
    · refine ⟨by simp [cachingIterRun, ht, hraw, hmiss, hexn, hrows, hflag], ?_, ?_⟩
      · simp [cachingIterRun, ht, hraw, hmiss, hexn, hrows, hflag]
      · simp [cachingIterRun, ht, hraw, hmiss, hexn, hrows, hflag, applyAdds, cache_add, hv]
    · refine ⟨by simp [cachingIterRun, ht, hraw, hmiss, hexn, hrows, hflag], ?_, ?_⟩
      · simp [cachingIterRun, ht, hraw, hmiss, hexn, hrows, hflag]
      · simp [cachingIterRun, ht, hraw, hmiss, hexn, hrows, hflag, applyAdds, cache_add, hv]
  · refine ⟨by simp [cachingIterRun, ht, hraw, hmiss, hexn, hrows], ?_, ?_⟩
    · simp [cachingIterRun, ht, hraw, hmiss, hexn, hrows]
    · simp [cachingIterRun, ht, hraw, hmiss, hexn, hrows, applyAdds, cache_add, hv]

/-- Witness for C3 at a concrete input: one row accumulated, so exactly one
cache.add happens, and a racing pre-existing value at the query key survives. -/
theorem cache_fill_add_iff_witness :
    ((cachingIterRun (fun s => s) cfg0 inpMiss).cacheAdds ≠ [] ↔
      (inpMiss.producerRows ≠ [] ∨ cfg0.cacheEmptyQuerysets = true)) ∧
    (cachingIterRun (fun s => s) cfg0 inpMiss).cacheAdds =
      (if inpMiss.producerRows ≠ [] ∨ cfg0.cacheEmptyQuerysets = true then
        [(iter_query_key (fun s => s) cfg0 "SELECT 1" inpMiss.db,
          inpMiss.producerRows.map (setFromCache false), inpMiss.timeout)]
      else []) ∧
    applyAdds (fun k => if k = iter_query_key (fun s => s) cfg0 "SELECT 1" inpMiss.db
        then some [rowA] else none)
      (cachingIterRun (fun s => s) cfg0 inpMiss).cacheAdds
      (iter_query_key (fun s => s) cfg0 "SELECT 1" inpMiss.db) = some [rowA] :=
  cache_fill_add_iff_nonempty_or_flag (fun s => s) cfg0 inpMiss "SELECT 1"
    (fun k => if k = iter_query_key (fun s => s) cfg0 "SELECT 1" inpMiss.db
      then some [rowA] else none) [rowA]
    (by decide) rfl rfl rfl (by simp)

/-- C9: when the wrapped function returns None, base.cached never serves the
result from the cache: starting from a state where the derived key reads as a
miss, the function runs, None is returned and written to the backend, yet the
stored None reads back as a miss again, so the immediately following
invocation runs the function once more (and writes again). -/
theorem cached_none_reexecutes_function {α : Type} (digest : String → String) (c : Config)
    (σ : String → Option (Option α)) (key_ : String)
    (h : cache_get σ (_function_cache_key digest c key_) = none) :
    (cachedRun digest c σ (none : Option α) key_).fRan = true ∧
    (cachedRun digest c σ (none : Option α) key_).val = none ∧
    (cachedRun digest c σ (none : Option α) key_).store
      (_function_cache_key digest c key_) = some none ∧
    cache_get ((cachedRun digest c σ (none : Option α) key_).store)
      (_function_cache_key digest c key_) = none ∧
    (cachedRun digest c ((cachedRun digest c σ (none : Option α) key_).store)
      (none : Option α) key_).fRan = true := by
  refine ⟨?_, ?_, ?_, ?_, ?_⟩ <;>
  · simp only [cachedRun]
    rw [h]
    try simp [cache_get]

/-- Witness for C9 at a concrete input. -/
theorem cached_none_reexecutes_witness :
    (cachedRun (fun s => s) cfg0 (fun _ => none) (none : Option Nat) "k").fRan = true ∧
    (cachedRun (fun s => s) cfg0 (fun _ => none) (none : Option Nat) "k").val = none ∧
    (cachedRun (fun s => s) cfg0 (fun _ => none) (none : Option Nat) "k").store
      (_function_cache_key (fun s => s) cfg0 "k") = some none ∧
    cache_get ((cachedRun (fun s => s) cfg0 (fun _ => none) (none : Option Nat) "k").store)
      (_function_cache_key (fun s => s) cfg0 "k") = none ∧
    (cachedRun (fun s => s) cfg0
      ((cachedRun (fun s => s) cfg0 (fun _ => none) (none : Option Nat) "k").store)
      (none : Option Nat) "k").fRan = true :=
  cached_none_reexecutes_function (fun s => s) cfg0 (fun _ => none) "k" rfl

/-- C6: every operation of the Redis invalidation strategy converts a caught
backend error into a logged neutral return value at the operation boundary:
the read yields set() (empty), both writes yield None, and no error escapes
(the wrappers are total); a successful read returns the decoded member list. -/
theorem redis_errors_convert_to_neutral (e : RedisErr) (keys l : List String)
    (mapping : List (String × List String)) :
    redis_get_flush_lists (fun _ => .error e) keys = .set ∅ ∧
    redis_get_flush_lists (fun _ => .ok l) keys = .list l ∧
    redis_add_to_flush_list (fun _ => .error e) mapping = none ∧
    redis_clear_flush_lists (fun _ => .error e) keys = none :=
  ⟨rfl, rfl, rfl, rfl⟩

/-- C2 counterexample: at a concrete query whose key derivation signals
EmptyResultSet (on the caching path, with a non-empty producer available),
CachingModelIterable.__iter__ does NOT run the underlying row producer — it
returns immediately — refuting the claim that the producer still runs. -/
theorem empty_result_set_skips_producer :
    inpEmptyRS.rawQuery = none ∧ inpEmptyRS.timeout ≠ NO_CACHE ∧
    inpEmptyRS.producerRows ≠ [] ∧
    (cachingIterRun (fun s => s) cfg0 inpEmptyRS).producerRan = false :=
  ⟨rfl, by decide, by decide, by decide⟩

/-- C2 (amended): when key derivation signals the empty-result-set condition,
the caching path is fully bypassed — no cache read, write, or flush-list
registration — the iteration yields nothing, and the underlying row producer
is not run at all; correspondingly count() returns 0 with no cache
interaction and without running the underlying COUNT query. -/
theorem empty_result_set_bypasses_caching (digest : String → String) (c : Config)
    (inp : IterInput) (t : Int) (sup : Nat) (σ : String → Option (Option Nat))
    (ht : inp.timeout ≠ NO_CACHE) (hraw : inp.rawQuery = none) :
    (cachingIterRun digest c inp).yielded = [] ∧
    (cachingIterRun digest c inp).producerRan = false ∧
    (cachingIterRun digest c inp).cacheGets = [] ∧
    (cachingIterRun digest c inp).cacheAdds = [] ∧
    (cachingIterRun digest c inp).registrations = [] ∧
    (cachingIterRun digest c inp).raised = none ∧
    qsCountRun digest c t none sup σ = ⟨0, σ, false, [], []⟩ := by
  refine ⟨?_, ?_, ?_, ?_, ?_, ?_, rfl⟩ <;> simp [cachingIterRun, ht, hraw]

/-- Witness for the amended C2 at a concrete input. -/
theorem empty_result_set_bypasses_witness :
    (cachingIterRun (fun s => s) cfg0 inpEmptyRS).yielded = [] ∧
    (cachingIterRun (fun s => s) cfg0 inpEmptyRS).producerRan = false ∧
    (cachingIterRun (fun s => s) cfg0 inpEmptyRS).cacheGets = [] ∧
    (cachingIterRun (fun s => s) cfg0 inpEmptyRS).cacheAdds = [] ∧
    (cachingIterRun (fun s => s) cfg0 inpEmptyRS).registrations = [] ∧
    (cachingIterRun (fun s => s) cfg0 inpEmptyRS).raised = none ∧
    qsCountRun (fun s => s) cfg0 8 none 5 (fun _ => none) = ⟨0, fun _ => none, false, [], []⟩ :=
  empty_result_set_bypasses_caching (fun s => s) cfg0 inpEmptyRS 8 5 (fun _ => none)
    (by decide) rfl

/-- Helper: a key absent from an association list looks up to none. -/
theorem pyLookup_eq_none {α : Type} (l : List (String × α)) (k : String)
    (h : k ∉ l.map Prod.fst) : pyLookup l k = none := by
  induction l with
  | nil => rfl
  | cons kv t ih =>
    simp only [List.map_cons, List.mem_cons] at h
    push_neg at h
    simp only [pyLookup, ih h.2]
    exact if_neg (fun hh => h.1 hh.symm)

/-- Helper: on an association list with distinct keys, lookup finds the
unique binding. -/
theorem pyLookup_eq_some {α : Type} (l : List (String × α)) (k : String) (v : α)
    (hnd : (l.map Prod.fst).Nodup) (h : (k, v) ∈ l) : pyLookup l k = some v := by
  induction l with
  | nil => simp at h
  | cons kv t ih =>
    simp only [List.map_cons, List.nodup_cons] at hnd
    rcases List.mem_cons.mp h with heq | hmem
    · subst heq
      have hnone : pyLookup t k = none := by
        apply pyLookup_eq_none
        simpa using hnd.1
      simp [pyLookup, hnone]
    · simp only [pyLookup, ih hnd.2 hmem]

/-- Helper: every key of a keyed filterMap association list is the key of one
of the generating elements. -/
theorem keyed_keys_sub {α β : Type} (l : List α) (bk : α → String) (F : String → Option β)
    (x : String)
    (hx : x ∈ (l.filterMap (fun a => (F (bk a)).map (fun v => (bk a, v)))).map Prod.fst) :
    ∃ b ∈ l, x = bk b := by
  simp only [List.map_filterMap] at hx
  rcases List.mem_filterMap.mp hx with ⟨a, ha, hfa⟩
  cases hF : F (bk a) <;> simp [hF] at hfa
  exact ⟨a, ha, hfa.symm⟩

/-- Helper: looking up bk x in the association list
l.filterMap (fun a => (F (bk a)).map (fun v => (bk a, v))) recovers F (bk x),
for x in l, when l has no duplicates and bk is injective on l. -/
theorem pyLookup_keyed {α β : Type} (l : List α) (bk : α → String) (F : String → Option β)
    (x : α) (hx : x ∈ l) (hnd : l.Nodup)
    (hinj : ∀ a ∈ l, ∀ b ∈ l, bk a = bk b → a = b) :
    pyLookup (l.filterMap (fun a => (F (bk a)).map (fun v => (bk a, v)))) (bk x) = F (bk x) := by
  induction l with
  | nil => simp at hx
  | cons a t iht =>
    have hndt := (List.nodup_cons.mp hnd).2
    have hanot := (List.nodup_cons.mp hnd).1
    have hinjt : ∀ a2 ∈ t, ∀ b ∈ t, bk a2 = bk b → a2 = b :=
      fun a2 h2 b hb he => hinj a2 (List.mem_cons_of_mem _ h2) b (List.mem_cons_of_mem _ hb) he
    rw [List.filterMap_cons]
    rcases List.mem_cons.mp hx with hxa | hxt
    · subst hxa
      have htail : pyLookup (t.filterMap (fun a2 => (F (bk a2)).map (fun v => (bk a2, v))))
          (bk x) = none := by
        apply pyLookup_eq_none
        intro hmem
        rcases keyed_keys_sub t bk F (bk x) hmem with ⟨b, hb, hbe⟩
        have hxb : x = b := hinj x hx b (List.mem_cons_of_mem _ hb) hbe
        exact hanot (hxb ▸ hb)
      cases hF : F (bk x) with
      | none => simp [htail]
      | some v => simp [pyLookup, htail]
    · have ihv := iht hxt hndt hinjt
      cases hF : F (bk a) with
      | none => simpa using ihv
      | some v =>
        cases hFx : F (bk x) with
        | some w =>
          rw [hFx] at ihv
          simp [pyLookup, ihv]
        | none =>
          rw [hFx] at ihv
          have hne : ¬ (bk a = bk x) := by
            intro he
            have hax : a = x := hinj a (List.mem_cons_self a t) x hx he
            rw [hax] at hanot
            exact hanot hxt
          simp [pyLookup, ihv, hne]

/-- Helper: the cell view of one backend key, as getMany exposes it. -/
def cellOf (σ : String → FlushVal) (k : String) : Option (Option (Finset String)) :=
  match σ k with
  | .absent => none
  | .storedNone => some none
  | .vals s => some (some s)

/-- Helper: getMany is the keyed filterMap of the cell view. -/
theorem getMany_eq_keyed (σ : String → FlushVal) (keys : List String) :
    getMany σ keys = keys.filterMap (fun k => (cellOf σ k).map (fun v => (k, v))) := by
  induction keys with
  | nil => rfl
  | cons a t ih =>
    simp only [getMany] at ih ⊢
    rw [List.filterMap_cons, List.filterMap_cons, ih]
    cases hσ : σ a <;> simp [cellOf, hσ]

/-- Helper: looking up a queried key in the getMany result recovers the store
cell for that key (queried keys assumed distinct, as Python dict keys are). -/
theorem pyLookup_getMany (σ : String → FlushVal) (keys : List String) (k : String)
    (hk : k ∈ keys) (hnd : keys.Nodup) :
    pyLookup (getMany σ keys) k = cellOf σ k := by
  rw [getMany_eq_keyed]
  exact pyLookup_keyed keys (fun s => s) (cellOf σ) k hk hnd (fun _ _ _ _ h => h)

/-- C4: for every flush key in the mapping given to the generic
Invalidator.add_to_flush_list, the set stored back at that key is the union
of the previously stored members (the empty set when the key is absent or its
value is None) with the newly supplied members, so existing members are never
dropped by the write. -/
theorem add_to_flush_list_merges_union (σ : String → FlushVal)
    (mapping : List (String × Finset String)) (k : String) (s : Finset String)
    (hnd : (mapping.map Prod.fst).Nodup) (hmem : (k, s) ∈ mapping) :
    add_to_flush_list σ mapping k = .vals ((σ k).asSet ∪ s) ∧
    (σ k).asSet ⊆ ((σ k).asSet ∪ s) := by
  refine ⟨?_, Finset.subset_union_left⟩
  unfold add_to_flush_list
  have hkmem : k ∈ mapping.map Prod.fst := by
    exact List.mem_map_of_mem Prod.fst hmem
  have hgot := pyLookup_getMany σ (mapping.map Prod.fst) k hkmem hnd
  have hFkeys : ∀ kl ∈ mapping,
      (match pyLookup (getMany σ (mapping.map Prod.fst)) kl.1 with
        | some none => (kl.1, kl.2)
        | some (some s2) => (kl.1, s2 ∪ kl.2)
        | none => (kl.1, ∅ ∪ kl.2) : String × Finset String).1 = kl.1 := by
    intro kl _
    cases pyLookup (getMany σ (mapping.map Prod.fst)) kl.1 with
    | none => rfl
    | some o => cases o <;> rfl
  have hndm : ((mapping.map (fun kl =>
      (match pyLookup (getMany σ (mapping.map Prod.fst)) kl.1 with
        | some none => (kl.1, kl.2)
        | some (some s2) => (kl.1, s2 ∪ kl.2)
        | none => (kl.1, ∅ ∪ kl.2) : String × Finset String))).map Prod.fst).Nodup := by
    have he : (mapping.map (fun kl =>
        (match pyLookup (getMany σ (mapping.map Prod.fst)) kl.1 with
          | some none => (kl.1, kl.2)
          | some (some s2) => (kl.1, s2 ∪ kl.2)
          | none => (kl.1, ∅ ∪ kl.2) : String × Finset String))).map Prod.fst =
        mapping.map Prod.fst := by
      rw [List.map_map]
      exact List.map_congr_left hFkeys
    rw [he]
    exact hnd
  have hmain : ∀ V : Finset String,
      (match pyLookup (getMany σ (mapping.map Prod.fst)) k with
        | some none => ((k, s) : String × Finset String)
        | some (some s2) => (k, s2 ∪ s)
        | none => (k, ∅ ∪ s)) = (k, V) →
      pyLookup (mapping.map (fun kl =>
        (match pyLookup (getMany σ (mapping.map Prod.fst)) kl.1 with
          | some none => (kl.1, kl.2)
          | some (some s2) => (kl.1, s2 ∪ kl.2)
          | none => (kl.1, ∅ ∪ kl.2) : String × Finset String))) k = some V := by
    intro V hV
    apply pyLookup_eq_some _ k V hndm
    refine List.mem_map.mpr ⟨(k, s), hmem, ?_⟩
    show (match pyLookup (getMany σ (mapping.map Prod.fst)) k with
        | some none => ((k, s) : String × Finset String)
        | some (some s2) => (k, s2 ∪ s)
        | none => (k, ∅ ∪ s)) = (k, V)
    exact hV
  cases hσk : σ k with
  | absent =>
    simp only [cellOf, hσk] at hgot
    rw [hmain (∅ ∪ s) (by rw [hgot])]
    simp [FlushVal.asSet]
  | storedNone =>
    simp only [cellOf, hσk] at hgot
    rw [hmain s (by rw [hgot])]
    simp [FlushVal.asSet]
  | vals s2 =>
    simp only [cellOf, hσk] at hgot
    rw [hmain (s2 ∪ s) (by rw [hgot])]
    simp [FlushVal.asSet]

/-- Witness for C4 at a concrete input: key k1 already holds q0 and is
updated with q1; the result is the union and q0 survives. -/
theorem add_to_flush_list_merges_witness :
    add_to_flush_list σ4 [("k1", {"q1"})] "k1" = .vals ((σ4 "k1").asSet ∪ {"q1"}) ∧
    (σ4 "k1").asSet ⊆ ((σ4 "k1").asSet ∪ {"q1"}) :=
  add_to_flush_list_merges_union σ4 [("k1", {"q1"})] "k1" {"q1"} (by decide) (by decide)

/-- C10: flush keys are computed with the database alias excluded — two model
instances identical except for the database they came from have identical
flush keys (own and foreign-key-related) — while the ordinary per-row cache
key (incl_db=True) does include the database alias, so it differs between two
distinct truthy aliases. -/
theorem flush_keys_exclude_db_shard (digest : String → String) (c : Config) (o o2 : MObj)
    (hm : o.meta = o2.meta) (hp : o.pk = o2.pk) (hf : o.fks = o2.fks) :
    _flush_keys digest c o = _flush_keys digest c o2 ∧
    flush_key_obj digest c o = flush_key_obj digest c o2 ∧
    (∀ d d2, o.db = some d → o2.db = some d2 → d ≠ "" → d2 ≠ "" → d ≠ d2 →
      get_cache_key o true ≠ get_cache_key o2 true) := by
  refine ⟨?_, ?_, ?_⟩
  · simp [_flush_keys, _cache_keys, get_cache_key, dbArg, hm, hp, hf]
  · simp [flush_key_obj, get_cache_key, dbArg, hm, hp]
  · intro d d2 hd hd2 hne hne2 hdd heq
    apply hdd
    have h1 : get_cache_key o true = "o:" ++ o.meta ++ ":" ++ o.pk ++ ":" ++ d := by
      simp [get_cache_key, dbArg, _cache_key, hd, hne]
    have h2 : get_cache_key o2 true = "o:" ++ o.meta ++ ":" ++ o.pk ++ ":" ++ d2 := by
      simp [get_cache_key, dbArg, _cache_key, hd2, hne2, ← hm, ← hp]
    rw [h1, h2] at heq
    have hdata := congrArg String.data heq
    simp only [String.data_append] at hdata
    have hde : d.data = d2.data := List.append_cancel_left hdata
    cases d
    cases d2
    simp only at hde
    rw [hde]

/-- Witness for C10 at concrete inputs differing only in database alias. -/
theorem flush_keys_exclude_db_witness :
    _flush_keys (fun s => s) cfg0 ⟨"addon", "1", some "db1", [⟨"user", some "9", true⟩]⟩ =
      _flush_keys (fun s => s) cfg0 ⟨"addon", "1", some "db2", [⟨"user", some "9", true⟩]⟩ ∧
    flush_key_obj (fun s => s) cfg0 ⟨"addon", "1", some "db1", [⟨"user", some "9", true⟩]⟩ =
      flush_key_obj (fun s => s) cfg0 ⟨"addon", "1", some "db2", [⟨"user", some "9", true⟩]⟩ ∧
    get_cache_key ⟨"addon", "1", some "db1", [⟨"user", some "9", true⟩]⟩ true ≠
      get_cache_key ⟨"addon", "1", some "db2", [⟨"user", some "9", true⟩]⟩ true := by
  have h := flush_keys_exclude_db_shard (fun s => s) cfg0
    ⟨"addon", "1", some "db1", [⟨"user", some "9", true⟩]⟩
    ⟨"addon", "1", some "db2", [⟨"user", some "9", true⟩]⟩ rfl rfl rfl
  exact ⟨h.1, h.2.1, h.2.2 "db1" "db2" rfl rfl (by decide) (by decide) (by decide)⟩

/-- Helper: on the two-cycle store every expansion step from one cycle key
discovers the other cycle key again, so no iteration bound suffices. -/
theorem expandLoop_cyc_aux (n : Nat) :
    (∀ o f : Finset String, expandLoop σcyc "p:flush:" n o f {"p:flush:a"} = none) ∧
    (∀ o f : Finset String, expandLoop σcyc "p:flush:" n o f {"p:flush:b"} = none) := by
  induction n with
  | zero => exact ⟨fun _ _ => rfl, fun _ _ => rfl⟩
  | succ n ih =>
    have ha : get_flush_lists σcyc {"p:flush:a"} = {"p:flush:b"} := by decide
    have hb : get_flush_lists σcyc {"p:flush:b"} = {"p:flush:a"} := by decide
    have hfa : ({"p:flush:a"} : Finset String).filter
        (fun k => pyStartsWith k "p:flush:" = true) = {"p:flush:a"} := by decide
    have hfb : ({"p:flush:b"} : Finset String).filter
        (fun k => pyStartsWith k "p:flush:" = true) = {"p:flush:b"} := by decide
    have hna : ({"p:flush:a"} : Finset String) ≠ ∅ := by decide
    have hnb : ({"p:flush:b"} : Finset String) ≠ ∅ := by decide
    constructor
    · intro o f
      simp only [expandLoop]
      rw [ha, hfb, if_neg hnb]
      exact ih.2 _ _
    · intro o f
      simp only [expandLoop]
      rw [hb, hfa, if_neg hna]
      exact ih.1 _ _

/-- C1 counterexample: on a concrete flush-list graph with a cycle, the
expansion loop of Invalidator.expand_flush_lists never terminates — no
iteration bound makes it return — because a discovered flush key is
re-expanded with no visited-membership check. -/
theorem expand_flush_lists_cycle_diverges :
    ¬ ∃ n : Nat,
      (expand_flush_lists σcyc cfg0.FLUSH n ["o:addon:1"] ["p:flush:a"]).isSome = true := by
  rintro ⟨n, h⟩
  have hF : cfg0.FLUSH = "p:flush:" := rfl
  have he : (["p:flush:a"] : List String).toFinset = ({"p:flush:a"} : Finset String) := by decide
  unfold expand_flush_lists at h
  rw [hF, he] at h
  rw [(expandLoop_cyc_aux n).1 (["o:addon:1"] : List String).toFinset
    ({"p:flush:a"} : Finset String)] at h
  simp at h

/-- Helper: when every flush-list edge to a flush-prefixed key strictly
decreases a rank, search sets bounded by rank n finish within n+1 steps. -/
theorem expandLoop_rank (σ : String → FlushVal) (F : String) (r : String → Nat)
    (hr : ∀ k k2, k2 ∈ (σ k).asSet → pyStartsWith k2 F = true → r k2 < r k) :
    ∀ n o f s, (∀ k ∈ s, r k < n) → (expandLoop σ F (n + 1) o f s).isSome = true := by
  intro n
  induction n with
  | zero =>
    intro o f s hs
    have hse : s = ∅ := Finset.eq_empty_iff_forall_not_mem.mpr (fun k hk => by
      have := hs k hk
      omega)
    subst hse
    simp [expandLoop, get_flush_lists]
  | succ n ih =>
    intro o f s hs
    simp only [expandLoop]
    by_cases hnew : (get_flush_lists σ s).filter (fun k => pyStartsWith k F = true) = ∅
    · rw [if_pos hnew]
      rfl
    · rw [if_neg hnew]
      apply ih
      intro k2 hk2
      rcases Finset.mem_filter.mp hk2 with ⟨hfound, hsw⟩
      rcases Finset.mem_biUnion.mp hfound with ⟨k, hks, hkmem⟩
      have h1 := hr k k2 hkmem hsw
      have h2 := hs k hks
      omega

/-- C1 (amended): the expansion loop stops as soon as a step discovers no
flush key at all (there is no visited-membership check), so it terminates on
every flush-list graph whose flush-key edges admit a strictly decreasing rank
— in particular on every acyclic graph — while a cyclic graph can make the
loop run forever. -/
theorem expand_flush_lists_terminates_on_ranked (σ : String → FlushVal) (F : String)
    (r : String → Nat) (n : Nat) (obj_keys flush_keys : List String)
    (hr : ∀ k k2, k2 ∈ (σ k).asSet → pyStartsWith k2 F = true → r k2 < r k)
    (hn : ∀ k ∈ flush_keys, r k < n) :
    (expand_flush_lists σ F (n + 1) obj_keys flush_keys).isSome = true := by
  apply expandLoop_rank σ F r hr n
  intro k hk
  exact hn k (List.mem_toFinset.mp hk)

/-- Witness for the amended C1: a one-edge acyclic store expands fully within
the fuel bound given by the constant rank. -/
theorem expand_flush_lists_terminates_witness :
    (expand_flush_lists σw cfg0.FLUSH 2 ["o:addon:9"] ["p:flush:a"]).isSome = true := by
  apply expand_flush_lists_terminates_on_ranked σw cfg0.FLUSH (fun _ => 0) 1
  · intro k k2 hmem hsw
    by_cases hk : k = "p:flush:a"
    · subst hk
      simp [σw, FlushVal.asSet] at hmem
      subst hmem
      exact absurd hsw (by decide)
    · simp [σw, hk, FlushVal.asSet] at hmem
  · intro k hk
    omega

/-- Helper: mAdd only grows a mapping pointwise. -/
theorem mAdd_mono (m : String → Finset String) (k v k2 : String) :
    m k2 ⊆ mAdd m k v k2 := by
  unfold mAdd
  by_cases h : k2 = k
  · rw [if_pos h]
    exact Finset.subset_insert v (m k2)
  · rw [if_neg h]

/-- Helper: mAdd leaves other keys untouched. -/
theorem mAdd_ne (m : String → Finset String) (k v k2 : String) (h : k2 ≠ k) :
    mAdd m k v k2 = m k2 := by
  unfold mAdd
  rw [if_neg h]

/-- Helper: a pointwise-growing fold step yields a pointwise-growing fold. -/
theorem foldl_pointwise_subset {β : Type} (l : List β)
    (step : (String → Finset String) → β → (String → Finset String))
    (hstep : ∀ m b k2, m k2 ⊆ step m b k2) (m : String → Finset String) (k2 : String) :
    m k2 ⊆ (l.foldl step m) k2 := by
  induction l generalizing m with
  | nil => exact subset_rfl
  | cons b t ih => exact (hstep m b k2).trans (ih (step m b))

/-- Helper: a fold whose steps never touch key k preserves the value at k. -/
theorem foldl_pointwise_eq {β : Type} (l : List β)
    (step : (String → Finset String) → β → (String → Finset String)) (k : String)
    (hstep : ∀ m b, b ∈ l → step m b k = m k) (m : String → Finset String) :
    (l.foldl step m) k = m k := by
  induction l generalizing m with
  | nil => rfl
  | cons b t ih =>
    rw [List.foldl_cons, ih (fun m2 b2 hb2 => hstep m2 b2 (List.mem_cons_of_mem _ hb2))]
    exact hstep m b (List.mem_cons_self b t)

/-- Helper: the expansion loop only grows its object-key and flush-key
accumulators. -/
theorem expandLoop_sub (σ : String → FlushVal) (F : String) :
    ∀ (n : Nat) (o f s O Fl : Finset String),
      expandLoop σ F n o f s = some (O, Fl) → o ⊆ O ∧ f ⊆ Fl := by
  intro n
  induction n with
  | zero =>
    intro o f s O Fl h
    exact absurd h (by simp [expandLoop])
  | succ n ih =>
    intro o f s O Fl h
    simp only [expandLoop] at h
    by_cases hnew : (get_flush_lists σ s).filter (fun k => pyStartsWith k F = true) = ∅
    · rw [if_pos hnew] at h
      have hp := Option.some.inj h
      rw [Prod.ext_iff] at hp
      have hO := hp.1
      have hFl := hp.2
      simp only at hO hFl
      subst hO
      subst hFl
      exact ⟨Finset.subset_union_left, subset_rfl⟩
    · rw [if_neg hnew] at h
      have hih := ih _ _ _ _ _ h
      exact ⟨Finset.subset_union_left.trans hih.1, Finset.subset_union_left.trans hih.2⟩

/-- Helper: a non-flush member of the flush list of any searched key ends up
among the returned object keys. -/
theorem expandLoop_captures (σ : String → FlushVal) (F : String) (n : Nat)
    (o f s O Fl : Finset String) (k k2 : String)
    (h : expandLoop σ F n o f s = some (O, Fl)) (hks : k ∈ s)
    (hk2 : k2 ∈ (σ k).asSet) (hnf : pyStartsWith k2 F = false) : k2 ∈ O := by
  cases n with
  | zero => exact absurd h (by simp [expandLoop])
  | succ n =>
    simp only [expandLoop] at h
    have hk2found : k2 ∈ get_flush_lists σ s := Finset.mem_biUnion.mpr ⟨k, hks, hk2⟩
    have hk2filter : k2 ∈ (get_flush_lists σ s).filter (fun x => pyStartsWith x F = false) :=
      Finset.mem_filter.mpr ⟨hk2found, hnf⟩
    by_cases hnew : (get_flush_lists σ s).filter (fun x => pyStartsWith x F = true) = ∅
    · rw [if_pos hnew] at h
      have hp := Option.some.inj h
      rw [Prod.ext_iff] at hp
      have hO := hp.1
      simp only at hO
      exact hO ▸ Finset.mem_union_right o hk2filter
    · rw [if_neg hnew] at h
      exact (expandLoop_sub σ F n _ _ _ _ _ h).1 (Finset.mem_union_right o hk2filter)

/-- Helper: an object's own flush key is the head of its flush-key list. -/
theorem flush_key_obj_mem (digest : String → String) (c : Config) (o2 : MObj) :
    flush_key_obj digest c o2 ∈ _flush_keys digest c o2 := by
  unfold _flush_keys _cache_keys
  rw [List.map_cons]
  exact List.mem_cons_self _ _

/-- Helper: shape of invalidate_objects on one new object with whole-model
invalidation enabled — the model's sentinel flush key is appended to the
seed flush keys before expansion. -/
theorem invalidate_objects_enabled_eq (digest : String → String) (c : Config)
    (σ : String → FlushVal) (fuel : Nat) (o : MObj) (meta : String)
    (hen : c.invalidateOnCreate = some WHOLE_MODEL) :
    invalidate_objects digest c σ fuel [o] true (some meta) =
      expandLoop σ c.FLUSH fuel (_cache_keys o true).toFinset
        (_flush_keys digest c o ++ [model_flush_key digest c meta]).toFinset
        (_flush_keys digest c o ++ [model_flush_key digest c meta]).toFinset := by
  simp only [invalidate_objects, expand_flush_lists]
  rw [hen]
  simp [_cache_keys]

/-- Helper: shape of invalidate_objects on one new object with whole-model
invalidation disabled — the seeds are exactly the object's flush keys. -/
theorem invalidate_objects_disabled_eq (digest : String → String) (c : Config)
    (σ : String → FlushVal) (fuel : Nat) (o : MObj) (meta : String)
    (hdis : c.invalidateOnCreate = none) :
    invalidate_objects digest c σ fuel [o] true (some meta) =
      expandLoop σ c.FLUSH fuel (_cache_keys o true).toFinset
        (_flush_keys digest c o).toFinset (_flush_keys digest c o).toFinset := by
  simp only [invalidate_objects, expand_flush_lists]
  rw [hdis]
  simp [_cache_keys, _flush_keys]

/-- C7: when CACHE_INVALIDATE_ON_CREATE is WHOLE_MODEL, (a) cache_objects
registers every freshly cached query key under the model's sentinel flush key,
and (b) invalidating a newly created instance seeds the expansion with the
sentinel, so any terminating expansion deletes every query key found in the
sentinel's flush list and clears the sentinel itself; when the mode is
disabled, (c) cache_objects puts nothing under the sentinel and (d) invalidating
a new instance neither deletes a query key reachable only through the
sentinel nor clears the sentinel. -/
theorem whole_model_create_invalidation (digest : String → String) (c : Config)
    (σ : String → FlushVal) (meta : String) (o : MObj) (os : List MObj) (qk qf : String) :
    (c.invalidateOnCreate = some WHOLE_MODEL →
      qk ∈ cache_objects_mapping digest c meta os qk qf (model_flush_key digest c meta)) ∧
    (c.invalidateOnCreate = some WHOLE_MODEL →
      ∀ fuel D F, qk ∈ (σ (model_flush_key digest c meta)).asSet →
        pyStartsWith qk c.FLUSH = false →
        invalidate_objects digest c σ fuel [o] true (some meta) = some (D, F) →
        qk ∈ D ∧ model_flush_key digest c meta ∈ F) ∧
    (c.invalidateOnCreate = none → model_flush_key digest c meta ≠ qf →
      (∀ o2 ∈ os, model_flush_key digest c meta ∉ _flush_keys digest c o2) →
      cache_objects_mapping digest c meta os qk qf (model_flush_key digest c meta) = ∅) ∧
    (c.invalidateOnCreate = none →
      model_flush_key digest c meta ∉ _flush_keys digest c o →
      qk ∉ _cache_keys o true →
      ∃ D F, invalidate_objects digest c (sentinelStore digest c meta qk) 1 [o] true (some meta)
          = some (D, F) ∧ qk ∉ D ∧ model_flush_key digest c meta ∉ F) := by
  refine ⟨?_, ?_, ?_, ?_⟩
  · intro hen
    simp only [cache_objects_mapping]
    rw [if_pos hen]
    refine Finset.mem_of_subset (foldl_pointwise_subset os _ ?_ _ _) ?_
    · intro m b k2
      refine foldl_pointwise_subset (_flush_keys digest c b) _ ?_ m k2
      intro m2 key k3
      show m2 k3 ⊆
        (if c.fetchById = true then
          mAdd (if key ≠ flush_key_obj digest c b ∧ key ≠ model_flush_key digest c meta then
            mAdd m2 key (flush_key_obj digest c b) else m2) key (byid_obj digest c b)
        else
          (if key ≠ flush_key_obj digest c b ∧ key ≠ model_flush_key digest c meta then
            mAdd m2 key (flush_key_obj digest c b) else m2)) k3
      by_cases h2 : c.fetchById = true
      · rw [if_pos h2]
        by_cases h1 : key ≠ flush_key_obj digest c b ∧ key ≠ model_flush_key digest c meta
        · rw [if_pos h1]
          exact (mAdd_mono m2 key _ k3).trans (mAdd_mono _ key _ k3)
        · rw [if_neg h1]
          exact mAdd_mono m2 key _ k3
      · rw [if_neg h2]
        by_cases h1 : key ≠ flush_key_obj digest c b ∧ key ≠ model_flush_key digest c meta
        · rw [if_pos h1]
          exact mAdd_mono m2 key _ k3
        · rw [if_neg h1]
    · show qk ∈ mAdd (mAdd _ qf qk) (model_flush_key digest c meta) qk (model_flush_key digest c meta)
      unfold mAdd
      rw [if_pos rfl]
      exact Finset.mem_insert_self qk _
  · intro hen fuel D F hσm hnf hinv
    rw [invalidate_objects_enabled_eq digest c σ fuel o meta hen] at hinv
    have hmem : model_flush_key digest c meta ∈
        (_flush_keys digest c o ++ [model_flush_key digest c meta]).toFinset := by
      simp
    constructor
    · exact expandLoop_captures σ c.FLUSH fuel _ _ _ D F _ qk hinv hmem hσm hnf
    · exact (expandLoop_sub σ c.FLUSH fuel _ _ _ _ _ hinv).2 hmem
  · intro hdis hqf hofk
    simp only [cache_objects_mapping]
    rw [if_neg (by simp [hdis])]
    rw [foldl_pointwise_eq os _ (model_flush_key digest c meta) ?_]
    · rw [mAdd_ne _ _ _ _ (fun he => hqf he)]
      rw [foldl_pointwise_eq (os.map (flush_key_obj digest c)) _ (model_flush_key digest c meta) ?_]
      · intro m k hk
        rcases List.mem_map.mp hk with ⟨o2, ho2, hko2⟩
        apply mAdd_ne
        intro he
        apply hofk o2 ho2
        rw [he, ← hko2]
        exact flush_key_obj_mem digest c o2
    · intro m b hb
      show ((_flush_keys digest c b).foldl _ m) (model_flush_key digest c meta) =
        m (model_flush_key digest c meta)
      apply foldl_pointwise_eq
      intro m2 key hkey
      have hne : model_flush_key digest c meta ≠ key := fun he => hofk b hb (he ▸ hkey)
      show (if c.fetchById = true then
          mAdd (if key ≠ flush_key_obj digest c b ∧ key ≠ model_flush_key digest c meta then
            mAdd m2 key (flush_key_obj digest c b) else m2) key (byid_obj digest c b)
        else
          (if key ≠ flush_key_obj digest c b ∧ key ≠ model_flush_key digest c meta then
            mAdd m2 key (flush_key_obj digest c b) else m2)) (model_flush_key digest c meta) =
        m2 (model_flush_key digest c meta)
      by_cases h2 : c.fetchById = true
      · rw [if_pos h2, mAdd_ne _ _ _ _ hne]
        by_cases h1 : key ≠ flush_key_obj digest c b ∧ key ≠ model_flush_key digest c meta
        · rw [if_pos h1, mAdd_ne _ _ _ _ hne]
        · rw [if_neg h1]
      · rw [if_neg h2]
        by_cases h1 : key ≠ flush_key_obj digest c b ∧ key ≠ model_flush_key digest c meta
        · rw [if_pos h1, mAdd_ne _ _ _ _ hne]
        · rw [if_neg h1]
  · intro hdis ho hqk2
    refine ⟨(_cache_keys o true).toFinset, (_flush_keys digest c o).toFinset, ?_, ?_, ?_⟩
    · rw [invalidate_objects_disabled_eq digest c _ 1 o meta hdis]
      have hfound : get_flush_lists (sentinelStore digest c meta qk)
          (_flush_keys digest c o).toFinset = ∅ := by
        apply Finset.eq_empty_iff_forall_not_mem.mpr
        intro x hx
        rcases Finset.mem_biUnion.mp hx with ⟨k, hk, hxk⟩
        have hk2 : k ∈ _flush_keys digest c o := List.mem_toFinset.mp hk
        have hkne : k ≠ model_flush_key digest c meta := fun he => ho (he ▸ hk2)
        simp [sentinelStore, hkne, FlushVal.asSet] at hxk
      simp only [expandLoop]
      rw [hfound]
      simp
    · intro hD
      exact hqk2 (List.mem_toFinset.mp hD)
    · intro hF
      exact ho (List.mem_toFinset.mp hF)

/-- Witness for C7 at concrete inputs: with whole-model mode on, the query key
QK is registered under the sentinel and invalidating a new instance deletes QK
and clears the sentinel; with the mode off, nothing is registered under the
sentinel and invalidating the new instance leaves QK alone. -/
theorem whole_model_create_invalidation_witness :
    "QK" ∈ cache_objects_mapping (fun s => s) cfgE "addon"
      [⟨"addon", "1", some "default", []⟩] "QK" "QF"
      (model_flush_key (fun s => s) cfgE "addon") ∧
    ("QK" ∈ ({"o:addon:2", "QK"} : Finset String) ∧
      model_flush_key (fun s => s) cfgE "addon" ∈
        ({"p:flush:p:o:addon:2", "p:flush:p:o:addon:all-pks:all-dbs"} : Finset String)) ∧
    cache_objects_mapping (fun s => s) cfg0 "addon"
      [⟨"addon", "1", some "default", []⟩] "QK" "QF"
      (model_flush_key (fun s => s) cfg0 "addon") = ∅ ∧
    (∃ D F, invalidate_objects (fun s => s) cfg0
        (sentinelStore (fun s => s) cfg0 "addon" "QK") 1
        [⟨"addon", "2", none, []⟩] true (some "addon") = some (D, F) ∧
      "QK" ∉ D ∧ model_flush_key (fun s => s) cfg0 "addon" ∉ F) := by
  have thmE := whole_model_create_invalidation (fun s => s) cfgE
    (sentinelStore (fun s => s) cfgE "addon" "QK") "addon" ⟨"addon", "2", none, []⟩
    [⟨"addon", "1", some "default", []⟩] "QK" "QF"
  have thmD := whole_model_create_invalidation (fun s => s) cfg0
    (sentinelStore (fun s => s) cfg0 "addon" "QK") "addon" ⟨"addon", "2", none, []⟩
    [⟨"addon", "1", some "default", []⟩] "QK" "QF"
  refine ⟨thmE.1 rfl, ?_, thmD.2.2.1 rfl (by decide) (by decide), thmD.2.2.2 rfl (by decide) (by decide)⟩
  exact thmE.2.1 rfl 1 {"o:addon:2", "QK"}
    {"p:flush:p:o:addon:2", "p:flush:p:o:addon:all-pks:all-dbs"}
    (by decide) (by decide) (by decide)

/-- Helper: inserting a fresh key into a dict appends it. -/
theorem dictInsert_new {α : Type} (l : List (String × α)) (k : String) (v : α)
    (h : k ∉ l.map Prod.fst) : dictInsert l k v = l ++ [(k, v)] := by
  unfold dictInsert
  rw [if_neg h]

/-- Helper: folding dict insertions of pairwise-fresh keys onto an accumulator
with disjoint keys just appends the pairs. -/
theorem dictOf_aux {α : Type} (l : List (String × α)) :
    ∀ acc : List (String × α), (acc.map Prod.fst ++ l.map Prod.fst).Nodup →
      l.foldl (fun d kv => dictInsert d kv.1 kv.2) acc = acc ++ l := by
  induction l with
  | nil =>
    intro acc _
    simp
  | cons kv t ih =>
    intro acc hacc
    rw [List.foldl_cons]
    have hsplit := List.nodup_append.mp hacc
    have hknotin : kv.1 ∉ acc.map Prod.fst :=
      fun hmem => hsplit.2.2 hmem (List.mem_cons_self _ _)
    rw [dictInsert_new acc kv.1 kv.2 hknotin]
    have hacc2 : ((acc ++ [(kv.1, kv.2)]).map Prod.fst ++ t.map Prod.fst).Nodup := by
      simpa [List.append_assoc] using hacc
    rw [ih (acc ++ [(kv.1, kv.2)]) hacc2]
    simp

/-- Helper: building a dict from pairs with distinct keys yields the pairs
unchanged. -/
theorem dictOf_of_nodup {α : Type} (l : List (String × α))
    (hnd : (l.map Prod.fst).Nodup) : dictOf l = l := by
  have h := dictOf_aux l [] (by simpa using hnd)
  simpa [dictOf] using h

/-- Helper: a filterMap that drops exactly the elements satisfying p is the
filter by the negation of p. -/
theorem filterMap_if_eq_filter {α : Type} [DecidableEq α] (p : α → Bool) (l : List α) :
    l.filterMap (fun a => if p a then none else some a) = l.filter (fun a => ! p a) := by
  induction l with
  | nil => rfl
  | cons a t ih =>
    by_cases h : p a = true <;>
      simp [List.filterMap_cons, List.filter_cons, h, ih]

/-- Helper: a filterMap that keeps an element when g yields a value is the
filter by isSome. -/
theorem filterMap_map_const_eq_filter {α β : Type} (g : α → Option β) (l : List α) :
    l.filterMap (fun a => (g a).map (fun _ => a)) = l.filter (fun a => (g a).isSome) := by
  induction l with
  | nil => rfl
  | cons a t ih =>
    cases h : g a <;> simp [List.filterMap_cons, List.filter_cons, h, ih]

/-- Helper: a mapM over the Option monad succeeds when every element does,
returning the pointwise values. -/
theorem mapM_eq_some {α β : Type} (f : α → Option β) (g : α → β) (l : List α)
    (h : ∀ a ∈ l, f a = some (g a)) : l.mapM f = some (l.map g) := by
  induction l with
  | nil => rfl
  | cons a t ih =>
    rw [List.mapM_cons, h a (List.mem_cons_self a t),
      ih (fun x hx => h x (List.mem_cons_of_mem a hx))]
    rfl

/-- Helper: the truthiness re-check in _cache_key makes the Python argument
expression `True and db or None` redundant. -/
theorem _cache_key_dbArg (m p : String) (db : Option String) :
    _cache_key m p (dbArg true db) = _cache_key m p db := by
  cases db with
  | none => rfl
  | some d =>
    by_cases hd : d = ""
    · simp [dbArg, _cache_key, hd]
    · simp [dbArg, _cache_key, hd]

/-- C8: fetch_by_id yields its objects in the order of the pks returned by the
initial id-only query — not in cache-return or second-query order — each pk's
object taken from the merged map of cached and freshly fetched objects indexed
by primary key. Hypotheses: the initial pks are distinct, byid keys do not
collide on them, cached entries and the second query are pk-consistent, and
the second query returns rows for exactly the missing pks (in any order) with
the queryset's model and database. -/
theorem fetch_by_id_yields_in_initial_pk_order (digest : String → String) (c : Config)
    (meta : String) (db : Option String) (pks : List String)
    (cacheGetMany : String → Option MObj) (fetchMissed : List String → List MObj)
    (hnd : pks.Nodup)
    (hinj : ∀ p1 ∈ pks, ∀ p2 ∈ pks,
      fetch_key digest c meta db p1 = fetch_key digest c meta db p2 → p1 = p2)
    (hcache : ∀ pk ∈ pks, ∀ o2,
      cacheGetMany (fetch_key digest c meta db pk) = some o2 → o2.pk = pk)
    (hfetch : ∀ l, ((fetchMissed l).map (fun o2 => o2.pk)).Perm l)
    (hfobj : ∀ l, ∀ o2 ∈ fetchMissed l, o2.meta = meta ∧ o2.db = db) :
    ∃ ys, (fetch_by_id digest c meta db pks cacheGetMany fetchMissed).yielded = some ys ∧
      ys.map (fun o2 => o2.pk) = pks ∧
      ∀ y ∈ ys,
        cacheGetMany (fetch_key digest c meta db y.pk) = some y ∨
        y ∈ fetchMissed (pks.filter (fun pk =>
          ! (cacheGetMany (fetch_key digest c meta db pk)).isSome)) := by
  have hkeysnd : ((pks.map (fun pk => (fetch_key digest c meta db pk, pk))).map Prod.fst).Nodup := by
    rw [List.map_map]
    exact hnd.map_on (fun x hx y hy he => hinj x hx y hy he)
  have hkeys : dictOf (pks.map (fun pk => (fetch_key digest c meta db pk, pk))) =
      pks.map (fun pk => (fetch_key digest c meta db pk, pk)) :=
    dictOf_of_nodup _ hkeysnd
  have hcached : (dictOf (pks.map (fun pk => (fetch_key digest c meta db pk, pk)))).filterMap
        (fun kv => (cacheGetMany kv.1).map (fun o => (kv.1, o))) =
      pks.filterMap (fun pk => (cacheGetMany (fetch_key digest c meta db pk)).map
        (fun o => (fetch_key digest c meta db pk, o))) := by
    rw [hkeys, List.filterMap_map]
    rfl
  have hlook : ∀ pk ∈ pks,
      pyLookup (pks.filterMap (fun p => (cacheGetMany (fetch_key digest c meta db p)).map
        (fun o => (fetch_key digest c meta db p, o)))) (fetch_key digest c meta db pk) =
      cacheGetMany (fetch_key digest c meta db pk) :=
    fun pk hpk => pyLookup_keyed pks (fetch_key digest c meta db) cacheGetMany pk hpk hnd hinj
  have hmissed : (dictOf (pks.map (fun pk => (fetch_key digest c meta db pk, pk)))).filterMap
        (fun kv => if (pyLookup ((dictOf (pks.map (fun pk =>
            (fetch_key digest c meta db pk, pk)))).filterMap
            (fun kv2 => (cacheGetMany kv2.1).map (fun o => (kv2.1, o)))) kv.1).isSome
          then none else some kv.2) =
      pks.filter (fun pk => ! (cacheGetMany (fetch_key digest c meta db pk)).isSome) := by
    rw [hcached, hkeys, List.filterMap_map]
    refine (List.filterMap_congr ?_).trans
      (filterMap_if_eq_filter (fun pk => (cacheGetMany (fetch_key digest c meta db pk)).isSome) pks)
    intro pk hpk
    show (if (pyLookup (pks.filterMap (fun p =>
        (cacheGetMany (fetch_key digest c meta db p)).map
          (fun o => (fetch_key digest c meta db p, o)))) (fetch_key digest c meta db pk)).isSome
        then none else some pk) =
      (if (cacheGetMany (fetch_key digest c meta db pk)).isSome then none else some pk)
    rw [hlook pk hpk]
  have hperm := hfetch (pks.filter (fun pk =>
    ! (cacheGetMany (fetch_key digest c meta db pk)).isSome))
  have hMnd : (pks.filter (fun pk =>
      ! (cacheGetMany (fetch_key digest c meta db pk)).isSome)).Nodup := hnd.filter _
  have hfnd : ((fetchMissed (pks.filter (fun pk =>
      ! (cacheGetMany (fetch_key digest c meta db pk)).isSome))).map
      (fun o2 => o2.pk)).Nodup := hperm.nodup_iff.mpr hMnd
  have hbyid : ∀ o2 ∈ fetchMissed (pks.filter (fun pk =>
      ! (cacheGetMany (fetch_key digest c meta db pk)).isSome)),
      byid_obj digest c o2 = fetch_key digest c meta db o2.pk := by
    intro o2 ho2
    obtain ⟨hm, hd⟩ := hfobj _ o2 ho2
    unfold byid_obj get_cache_key fetch_key
    rw [hm, hd, _cache_key_dbArg]
  have hfkeysnd : (((fetchMissed (pks.filter (fun pk =>
      ! (cacheGetMany (fetch_key digest c meta db pk)).isSome))).map
      (fun o => (fetch_key digest c meta db o.pk, o))).map Prod.fst).Nodup := by
    rw [List.map_map]
    rw [show (Prod.fst ∘ fun o : MObj => (fetch_key digest c meta db o.pk, o)) =
      (fetch_key digest c meta db) ∘ (fun o2 : MObj => o2.pk) from rfl, ← List.map_map]
    apply hfnd.map_on
    intro x hx y hy hxy
    have hxM := hperm.mem_iff.mp hx
    have hyM := hperm.mem_iff.mp hy
    exact hinj x (List.mem_of_mem_filter hxM) y (List.mem_of_mem_filter hyM) hxy
  have hnewBIG : (if (pks.filter (fun pk =>
        ! (cacheGetMany (fetch_key digest c meta db pk)).isSome)) ≠ [] then
      dictOf ((fetchMissed (pks.filter (fun pk =>
        ! (cacheGetMany (fetch_key digest c meta db pk)).isSome))).map
        (fun o => (byid_obj digest c o, o))) else []) =
      (fetchMissed (pks.filter (fun pk =>
        ! (cacheGetMany (fetch_key digest c meta db pk)).isSome))).map
        (fun o => (fetch_key digest c meta db o.pk, o)) := by
    have hmapb : (fetchMissed (pks.filter (fun pk =>
        ! (cacheGetMany (fetch_key digest c meta db pk)).isSome))).map
          (fun o => (byid_obj digest c o, o)) =
        (fetchMissed (pks.filter (fun pk =>
        ! (cacheGetMany (fetch_key digest c meta db pk)).isSome))).map
          (fun o => (fetch_key digest c meta db o.pk, o)) :=
      List.map_congr_left (fun o2 ho2 => by rw [hbyid o2 ho2])
    by_cases hM : (pks.filter (fun pk =>
        ! (cacheGetMany (fetch_key digest c meta db pk)).isSome)) = []
    · rw [if_neg (fun h => h hM)]
      have hf0 : fetchMissed (pks.filter (fun pk =>
          ! (cacheGetMany (fetch_key digest c meta db pk)).isSome)) = [] := by
        rw [hM]
        have h1 := hfetch ([] : List String)
        exact List.map_eq_nil_iff.mp (List.perm_nil.mp h1)
      rw [hf0]
      rfl
    · rw [if_pos hM, hmapb, dictOf_of_nodup _ hfkeysnd]
  have hcobjs : (pks.filterMap (fun pk => (cacheGetMany (fetch_key digest c meta db pk)).map
        (fun o => (fetch_key digest c meta db pk, o)))).map Prod.snd =
      pks.filterMap (fun pk => cacheGetMany (fetch_key digest c meta db pk)) := by
    rw [List.map_filterMap]
    apply List.filterMap_congr
    intro pk _
    cases cacheGetMany (fetch_key digest c meta db pk) <;> rfl
  have hnobjs : ((fetchMissed (pks.filter (fun pk =>
      ! (cacheGetMany (fetch_key digest c meta db pk)).isSome))).map
      (fun o => (fetch_key digest c meta db o.pk, o))).map Prod.snd =
      fetchMissed (pks.filter (fun pk =>
      ! (cacheGetMany (fetch_key digest c meta db pk)).isSome)) := by
    rw [List.map_map]
    rw [show (Prod.snd ∘ fun o : MObj => (fetch_key digest c meta db o.pk, o)) = id from rfl]
    exact List.map_id _
  have hcpk : (pks.filterMap (fun pk => cacheGetMany (fetch_key digest c meta db pk))).map
        (fun o2 => o2.pk) =
      pks.filter (fun pk => (cacheGetMany (fetch_key digest c meta db pk)).isSome) := by
    rw [List.map_filterMap]
    refine (List.filterMap_congr ?_).trans
      (filterMap_map_const_eq_filter (fun pk => cacheGetMany (fetch_key digest c meta db pk)) pks)
    intro pk hpk
    cases hF : cacheGetMany (fetch_key digest c meta db pk) with
    | none => rfl
    | some o => simp [hcache pk hpk o hF]
  have hOBJnd : (((pks.filterMap (fun pk => cacheGetMany (fetch_key digest c meta db pk)) ++
      fetchMissed (pks.filter (fun pk =>
        ! (cacheGetMany (fetch_key digest c meta db pk)).isSome))).map
      (fun o => (o.pk, o))).map Prod.fst).Nodup := by
    rw [List.map_map]
    rw [show (Prod.fst ∘ fun o : MObj => (o.pk, o)) = (fun o2 : MObj => o2.pk) from rfl]
    rw [List.map_append, hcpk]
    apply List.Nodup.append (hnd.filter _) hfnd
    intro x hx1 hx2
    have hx1s := List.mem_filter.mp hx1
    have hxM := hperm.mem_iff.mp hx2
    have hx2s := List.mem_filter.mp hxM
    have h1 := hx1s.2
    have h2 := hx2s.2
    rw [h1] at h2
    simp at h2
  have hOBJ : dictOf ((pks.filterMap (fun pk => cacheGetMany (fetch_key digest c meta db pk)) ++
      fetchMissed (pks.filter (fun pk =>
        ! (cacheGetMany (fetch_key digest c meta db pk)).isSome))).map
      (fun o => (o.pk, o))) =
      (pks.filterMap (fun pk => cacheGetMany (fetch_key digest c meta db pk)) ++
      fetchMissed (pks.filter (fun pk =>
        ! (cacheGetMany (fetch_key digest c meta db pk)).isSome))).map
      (fun o => (o.pk, o)) :=
    dictOf_of_nodup _ hOBJnd
  have hpoint : ∀ pk ∈ pks, ∃ o,
      pyLookup ((pks.filterMap (fun p => cacheGetMany (fetch_key digest c meta db p)) ++
        fetchMissed (pks.filter (fun p =>
          ! (cacheGetMany (fetch_key digest c meta db p)).isSome))).map
        (fun o2 => (o2.pk, o2))) pk = some o ∧
      o.pk = pk ∧
      (cacheGetMany (fetch_key digest c meta db pk) = some o ∨
        o ∈ fetchMissed (pks.filter (fun p =>
          ! (cacheGetMany (fetch_key digest c meta db p)).isSome))) := by
    intro pk hpk
    cases hF : cacheGetMany (fetch_key digest c meta db pk) with
    | some o =>
      have ho : o.pk = pk := hcache pk hpk o hF
      have hoin : o ∈ pks.filterMap (fun p => cacheGetMany (fetch_key digest c meta db p)) :=
        List.mem_filterMap.mpr ⟨pk, hpk, hF⟩
      have hentry : (pk, o) ∈ (pks.filterMap (fun p => cacheGetMany (fetch_key digest c meta db p)) ++
          fetchMissed (pks.filter (fun p =>
            ! (cacheGetMany (fetch_key digest c meta db p)).isSome))).map
          (fun o2 => (o2.pk, o2)) := by
        refine List.mem_map.mpr ⟨o, List.mem_append_left _ hoin, ?_⟩
        show (o.pk, o) = (pk, o)
        rw [ho]
      exact ⟨o, pyLookup_eq_some _ pk o hOBJnd hentry, ho, Or.inl rfl⟩
    | none =>
      have hpkM : pk ∈ pks.filter (fun p =>
          ! (cacheGetMany (fetch_key digest c meta db p)).isSome) :=
        List.mem_filter.mpr ⟨hpk, by rw [hF]; rfl⟩
      have hpkf : pk ∈ (fetchMissed (pks.filter (fun p =>
          ! (cacheGetMany (fetch_key digest c meta db p)).isSome))).map (fun o2 => o2.pk) :=
        hperm.mem_iff.mpr hpkM
      rcases List.mem_map.mp hpkf with ⟨o, hoF, hopk⟩
      have hentry : (pk, o) ∈ (pks.filterMap (fun p => cacheGetMany (fetch_key digest c meta db p)) ++
          fetchMissed (pks.filter (fun p =>
            ! (cacheGetMany (fetch_key digest c meta db p)).isSome))).map
          (fun o2 => (o2.pk, o2)) := by
        refine List.mem_map.mpr ⟨o, List.mem_append_right _ hoF, ?_⟩
        show (o.pk, o) = (pk, o)
        rw [hopk]
      exact ⟨o, pyLookup_eq_some _ pk o hOBJnd hentry, hopk, Or.inr hoF⟩
  refine ⟨pks.map (fun pk => (pyLookup ((pks.filterMap (fun p =>
      cacheGetMany (fetch_key digest c meta db p)) ++
      fetchMissed (pks.filter (fun p =>
        ! (cacheGetMany (fetch_key digest c meta db p)).isSome))).map
      (fun o2 => (o2.pk, o2))) pk).getD ⟨"", "", none, []⟩), ?_, ?_, ?_⟩
  · simp only [fetch_by_id]
    rw [hmissed, hnewBIG, hcached, hcobjs, hnobjs, hOBJ]
    apply mapM_eq_some
    intro pk hpk
    obtain ⟨o, ho1, _, _⟩ := hpoint pk hpk
    rw [ho1]
    rfl
  · rw [List.map_map]
    refine (List.map_congr_left ?_).trans (List.map_id pks)
    intro pk hpk
    obtain ⟨o, ho1, ho2, _⟩ := hpoint pk hpk
    show ((pyLookup ((pks.filterMap (fun p =>
        cacheGetMany (fetch_key digest c meta db p)) ++
        fetchMissed (pks.filter (fun p =>
          ! (cacheGetMany (fetch_key digest c meta db p)).isSome))).map
        (fun o2 => (o2.pk, o2))) pk).getD ⟨"", "", none, []⟩).pk = pk
    rw [ho1]
    exact ho2
  · intro y hy
    rcases List.mem_map.mp hy with ⟨pk, hpk, hgy⟩
    obtain ⟨o, ho1, ho2, ho3⟩ := hpoint pk hpk
    have hyo : y = o := by
      rw [← hgy, ho1]
      rfl
    subst hyo
    rw [ho2]
    exact ho3

/-- Witness for C8 at a concrete input: pks [1, 2] with 1 cached and 2 fetched
by the second query; the yielded pk sequence is exactly [1, 2]. -/
theorem fetch_by_id_order_witness :
    ∃ ys, (fetch_by_id (fun s => s) cfg0 "addon" (some "default") ["1", "2"]
        cgm8 fm8).yielded = some ys ∧
      ys.map (fun o2 => o2.pk) = ["1", "2"] ∧
      ∀ y ∈ ys,
        cgm8 (fetch_key (fun s => s) cfg0 "addon" (some "default") y.pk) = some y ∨
        y ∈ fm8 (["1", "2"].filter (fun pk =>
          ! (cgm8 (fetch_key (fun s => s) cfg0 "addon" (some "default") pk)).isSome)) := by
  apply fetch_by_id_yields_in_initial_pk_order (fun s => s) cfg0 "addon" (some "default")
    ["1", "2"] cgm8 fm8
  · decide
  · decide
  · intro pk hpk o2 h
    fin_cases hpk
    · rw [show cgm8 (fetch_key (fun s => s) cfg0 "addon" (some "default") "1") =
        some ⟨"addon", "1", some "default", []⟩ from rfl] at h
      injection h with h2
      rw [← h2]
    · rw [show cgm8 (fetch_key (fun s => s) cfg0 "addon" (some "default") "2") =
        none from by decide] at h
      exact absurd h (by simp)
  · intro l
    unfold fm8
    rw [List.map_map]
    rw [show ((fun o2 : MObj => o2.pk) ∘ fun pk =>
      (⟨"addon", pk, some "default", []⟩ : MObj)) = id from rfl]
    rw [List.map_id]
  · intro l o2 h
    unfold fm8 at h
    rcases List.mem_map.mp h with ⟨pk, _, hmk⟩
    rw [← hmk]
    exact ⟨rfl, rfl⟩

end CacheMachine
